import Mathlib

/-
  Verification of the multi-terminal synchronization core of the POS repository:
  the relay sync server (sync-server/src/server.ts) and the terminal-local
  SyncService (outbox, push/pull cycle, remote-change application).
-/

namespace PosSync

/- ===== Relay server model (sync-server/src/server.ts) ===== -/

/-- One row of the relay change log (table sync_changes). -/
structure ChangeRow where
  store_id : Int
  terminal_id : Option Int
  entity_type : String
  entity_id : Int
  action : String
  data : String
  version : Nat
  deriving DecidableEq

/-- Relay server state: the append-only change log plus the latest_version
counter stored in sync_metadata. -/
structure ServerState where
  log : List ChangeRow
  latestVersion : Nat
  deriving DecidableEq

/-- One element of the changes array of a push request body, as the handler
reads it (change.entity_type, change.entity_id, change.action, change.data). -/
structure ChangeIn where
  entity_type : String
  entity_id : Int
  action : String
  data : String
  deriving DecidableEq

/-- The changes field of a push body: absent, present but not an array, or an
array. An empty array is truthy in JavaScript and passes validation. -/
inductive ChangesField where
  | absent : ChangesField
  | nonArray : ChangesField
  | arr (cs : List ChangeIn) : ChangesField
  deriving DecidableEq

/-- Whether the changes field is an array (Array.isArray). -/
def ChangesField.isArr : ChangesField → Bool
  | .arr _ => true
  | _ => false

/-- Push request body as destructured from req.body; none models an absent
field (undefined). -/
structure PushBody where
  terminal_id : Option Int
  store_id : Option Int
  changes : ChangesField
  deriving DecidableEq

/-- Push response body. -/
structure PushResp where
  success : Bool
  changes_received : Nat
  latest_version : Nat
  deriving DecidableEq

/-- Result of the push endpoint: 200 with a body, or 400. -/
inductive PushResult where
  | ok (resp : PushResp)
  | badRequest
  deriving DecidableEq

/-- The insert loop of the push handler: for each change of the batch in array
order, increment the version counter and insert one row carrying that version,
the submitting terminal_id and store_id. Returns the extended log and the
final counter. -/
def insertChanges (storeId terminalId : Int) :
    List ChangeIn → List ChangeRow → Nat → List ChangeRow × Nat
  | [], log, v => (log, v)
  | c :: rest, log, v =>
      insertChanges storeId terminalId rest
        (log ++ [{ store_id := storeId, terminal_id := some terminalId,
                   entity_type := c.entity_type, entity_id := c.entity_id,
                   action := c.action, data := c.data, version := v + 1 }])
        (v + 1)

/-- POST /api/sync/push. Validation follows the source condition
(!terminal_id || !store_id || !changes || !Array.isArray(changes)) with JS
truthiness: a missing or zero terminal_id or store_id is rejected, and changes
must be an array. An accepted request runs one transaction assigning versions
latest+1, latest+2, ... and updating latest_version; a rejected request leaves
the state unchanged. -/
def pushEndpoint (st : ServerState) (b : PushBody) : PushResult × ServerState :=
  match b.terminal_id, b.store_id, b.changes with
  | some tid, some sid, ChangesField.arr cs =>
      if tid != 0 && sid != 0 then
        let r := insertChanges sid tid cs st.log st.latestVersion
        (PushResult.ok { success := true, changes_received := cs.length,
                         latest_version := r.2 },
         { log := r.1, latestVersion := r.2 })
      else (PushResult.badRequest, st)
  | _, _, _ => (PushResult.badRequest, st)

/-- Pull query parameters after parseInt: none models NaN (absent or
non-numeric). -/
structure PullQuery where
  terminal_id : Option Int
  since_version : Option Int
  deriving DecidableEq

/-- Pull response body. -/
structure PullResp where
  success : Bool
  changes : List ChangeRow
  latest_version : Nat
  count : Nat
  deriving DecidableEq

/-- Result of the pull endpoint: 200 with a body, or 400. The endpoint is
read-only. -/
inductive PullResult where
  | ok (resp : PullResp)
  | badRequest
  deriving DecidableEq

/-- Row filter of the pull query:
version > since AND (terminal_id IS NULL OR terminal_id != t). -/
def pullPred (sinceV t : Int) (r : ChangeRow) : Prop :=
  sinceV < (r.version : Int) ∧ (r.terminal_id = none ∨ r.terminal_id ≠ some t)

instance (sinceV t : Int) (r : ChangeRow) : Decidable (pullPred sinceV t r) := by
  unfold pullPred; infer_instance

/-- ORDER BY version ASC. -/
def vle (a b : ChangeRow) : Prop := a.version ≤ b.version

instance : DecidableRel vle := fun a b => Nat.decLe a.version b.version

instance : IsTotal ChangeRow vle := ⟨fun a b => Nat.le_total a.version b.version⟩

instance : IsTrans ChangeRow vle := ⟨fun _ _ _ => Nat.le_trans⟩

/-- GET /api/sync/pull: rejects a falsy terminal_id (parseInt giving NaN or 0);
since_version defaults to 0 (parseInt(...) || 0); returns the matching rows
ordered by version ascending, capped at 1000 (LIMIT after ORDER BY), plus the
stored latest_version, which is reported whether or not any rows matched. -/
def pullEndpoint (st : ServerState) (q : PullQuery) : PullResult :=
  match q.terminal_id with
  | none => PullResult.badRequest
  | some t =>
      if t = 0 then PullResult.badRequest
      else
        let sinceV := q.since_version.getD 0
        let rows :=
          ((st.log.filter (fun r => decide (pullPred sinceV t r))).insertionSort vle).take 1000
        PullResult.ok { success := true, changes := rows,
                        latest_version := st.latestVersion, count := rows.length }

/- ===== Lemmas about the insert loop ===== -/

/-- The rows the insert loop appends for a batch, with versions starting just
above v. -/
def mkRows (storeId terminalId : Int) : Nat → List ChangeIn → List ChangeRow
  | _, [] => []
  | v, c :: rest =>
      { store_id := storeId, terminal_id := some terminalId,
        entity_type := c.entity_type, entity_id := c.entity_id,
        action := c.action, data := c.data, version := v + 1 }
        :: mkRows storeId terminalId (v + 1) rest

lemma mkRows_length (sid tid : Int) :
    ∀ (v : Nat) (cs : List ChangeIn), (mkRows sid tid v cs).length = cs.length := by
  intro v cs
  induction cs generalizing v with
  | nil => simp [mkRows]
  | cons c rest ih => simp [mkRows, ih]

lemma mkRows_versions (sid tid : Int) :
    ∀ (v : Nat) (cs : List ChangeIn),
      (mkRows sid tid v cs).map (fun r => r.version) = List.range' (v + 1) cs.length := by
  intro v cs
  induction cs generalizing v with
  | nil => simp [mkRows]
  | cons c rest ih => simp [mkRows, List.range'_succ, ih]

lemma insertChanges_eq (sid tid : Int) :
    ∀ (cs : List ChangeIn) (log : List ChangeRow) (v : Nat),
      insertChanges sid tid cs log v = (log ++ mkRows sid tid v cs, v + cs.length) := by
  intro cs
  induction cs with
  | nil => intro log v; simp [insertChanges, mkRows]
  | cons c rest ih =>
      intro log v
      rw [insertChanges, mkRows, ih]
      simp [List.append_assoc]
      omega

/- ===== C1: accepted pushes assign contiguous increasing versions ===== -/

/-- C1: a push accepted by the relay with a batch of k changes assigns the
versions latest+1 .. latest+k, contiguous and strictly increasing in array
order; the stored latest_version ends at its prior value plus k, and the
response carries changes_received = k and latest_version equal to that final
value. -/
theorem push_versions_contiguous (st : ServerState) (b : PushBody)
    (cs : List ChangeIn) (resp : PushResp) (st2 : ServerState)
    (hcs : b.changes = ChangesField.arr cs)
    (hok : pushEndpoint st b = (PushResult.ok resp, st2)) :
    st2.log.take st.log.length = st.log ∧
    (st2.log.drop st.log.length).map (fun r => r.version)
      = List.range' (st.latestVersion + 1) cs.length ∧
    st2.latestVersion = st.latestVersion + cs.length ∧
    resp.changes_received = cs.length ∧
    resp.latest_version = st.latestVersion + cs.length ∧
    resp.success = true := by
  obtain ⟨tid?, sid?, ch⟩ := b
  cases hcs
  cases tid? with
  | none => simp [pushEndpoint] at hok
  | some tid =>
    cases sid? with
    | none => simp [pushEndpoint] at hok
    | some sid =>
      by_cases h1 : tid = 0
      · simp [pushEndpoint, h1] at hok
      · by_cases h2 : sid = 0
        · simp [pushEndpoint, h1, h2] at hok
        · rw [pushEndpoint] at hok
          dsimp only at hok
          rw [if_pos (show (tid != 0 && sid != 0) = true by simp [h1, h2])] at hok
          simp only [insertChanges_eq] at hok
          injection hok with hr hs
          injection hr with hr
          subst hr
          subst hs
          refine ⟨List.take_left _ _, ?_, rfl, rfl, rfl, rfl⟩
          rw [List.drop_left]
          exact mkRows_versions sid tid st.latestVersion cs

def c1st : ServerState := { log := [], latestVersion := 5 }

def c1body : PushBody :=
  { terminal_id := some 3, store_id := some 1,
    changes := ChangesField.arr
      [ { entity_type := "product", entity_id := 1, action := "create", data := "1|a" },
        { entity_type := "product", entity_id := 2, action := "update", data := "2|b" } ] }

theorem push_versions_contiguous_witness :
    (pushEndpoint c1st c1body).2.latestVersion = 7 ∧
    ((pushEndpoint c1st c1body).2.log.drop 0).map (fun r => r.version)
      = List.range' 6 2 := by
  have hok : pushEndpoint c1st c1body
      = (PushResult.ok { success := true, changes_received := 2, latest_version := 7 },
         (pushEndpoint c1st c1body).2) := rfl
  have h := push_versions_contiguous c1st c1body _ _ _ rfl hok
  exact ⟨h.2.2.1, h.2.1⟩

/- ===== C10: an accepted empty batch is a no-op success ===== -/

/-- C10: a push whose terminal_id and store_id are present and non-zero and
whose changes is the empty array succeeds with success = true,
changes_received = 0, latest_version equal to the stored version, and the
change log and stored latest_version unchanged. -/
theorem push_empty_batch (st : ServerState) (tid sid : Int)
    (h1 : tid ≠ 0) (h2 : sid ≠ 0) :
    pushEndpoint st { terminal_id := some tid, store_id := some sid,
                      changes := ChangesField.arr [] }
      = (PushResult.ok { success := true, changes_received := 0,
                         latest_version := st.latestVersion }, st) := by
  simp [pushEndpoint, insertChanges, h1, h2]

theorem push_empty_batch_witness :
    pushEndpoint { log := [], latestVersion := 5 }
        { terminal_id := some 1, store_id := some 1, changes := ChangesField.arr [] }
      = (PushResult.ok { success := true, changes_received := 0, latest_version := 5 },
         { log := [], latestVersion := 5 }) :=
  push_empty_batch { log := [], latestVersion := 5 } 1 1 (by decide) (by decide)

/- ===== C8: rejection condition of the push endpoint ===== -/

def c8BadBody : PushBody :=
  { terminal_id := some 0, store_id := some 1, changes := ChangesField.arr [] }

/-- C8 counterexample: a body in which all three required fields are present
and changes is an array is still rejected with 400, because terminal_id = 0 is
falsy in JavaScript. -/
theorem push_reject_counterexample :
    c8BadBody.terminal_id.isSome = true ∧
    c8BadBody.store_id.isSome = true ∧
    c8BadBody.changes.isArr = true ∧
    (pushEndpoint { log := [], latestVersion := 0 } c8BadBody).1 = PushResult.badRequest := by
  refine ⟨rfl, rfl, rfl, ?_⟩
  rfl

/-- C8 amended: the push endpoint rejects with 400 exactly when terminal_id is
missing or zero, or store_id is missing or zero, or changes is missing or not
an array (an empty array is accepted); a rejected request leaves the change
log and the stored latest_version unchanged. -/
theorem push_reject_iff (st : ServerState) (b : PushBody) :
    ((pushEndpoint st b).1 = PushResult.badRequest ↔
      b.terminal_id = none ∨ b.terminal_id = some 0 ∨
      b.store_id = none ∨ b.store_id = some 0 ∨ b.changes.isArr = false) ∧
    ((pushEndpoint st b).1 = PushResult.badRequest → (pushEndpoint st b).2 = st) := by
  obtain ⟨tid?, sid?, ch⟩ := b
  cases ch with
  | absent => simp [pushEndpoint, ChangesField.isArr]
  | nonArray => simp [pushEndpoint, ChangesField.isArr]
  | arr cs =>
    cases tid? with
    | none => simp [pushEndpoint, ChangesField.isArr]
    | some tid =>
      cases sid? with
      | none => simp [pushEndpoint, ChangesField.isArr]
      | some sid =>
        by_cases h1 : tid = 0
        · simp [pushEndpoint, ChangesField.isArr, h1]
        · by_cases h2 : sid = 0
          · simp [pushEndpoint, ChangesField.isArr, h1, h2]
          · simp [pushEndpoint, ChangesField.isArr, h1, h2]

theorem push_reject_iff_witness :
    (pushEndpoint { log := [], latestVersion := 0 } c8BadBody).1 = PushResult.badRequest :=
  (push_reject_iff { log := [], latestVersion := 0 } c8BadBody).1.mpr
    (Or.inr (Or.inl rfl))

/- ===== C2: the pull endpoint returns the filtered log, sorted and capped ===== -/

/-- C2: an accepted pull with terminal id t and cursor sinceVersion returns
exactly the change-log rows with version > sinceVersion whose terminal_id is
null or differs from t, sorted ascending by version and capped at 1000 rows,
and reports the stored latest_version whether or not any rows matched. -/
theorem pull_returns_filtered_sorted (st : ServerState) (t sinceArg : Int)
    (resp : PullResp) (ht : t ≠ 0)
    (hok : pullEndpoint st { terminal_id := some t, since_version := some sinceArg }
            = PullResult.ok resp) :
    resp.latest_version = st.latestVersion ∧
    List.Sorted vle resp.changes ∧
    (∀ r ∈ resp.changes, pullPred sinceArg t r) ∧
    resp.changes.length ≤ 1000 ∧
    ((st.log.filter (fun r => decide (pullPred sinceArg t r))).length ≤ 1000 →
      resp.changes.Perm (st.log.filter (fun r => decide (pullPred sinceArg t r)))) := by
  rw [pullEndpoint] at hok
  dsimp only at hok
  rw [if_neg ht] at hok
  simp only [Option.getD_some] at hok
  injection hok with hok
  subst hok
  dsimp only
  refine ⟨rfl, ?_, ?_, ?_, ?_⟩
  · exact (List.sorted_insertionSort vle _).sublist (List.take_sublist _ _)
  · intro r hr
    have hr2 := List.take_subset _ _ hr
    rw [List.mem_insertionSort] at hr2
    exact of_decide_eq_true (List.mem_filter.mp hr2).2
  · exact List.length_take_le _ _
  · intro hlen
    rw [List.take_of_length_le (by rw [List.length_insertionSort]; exact hlen)]
    exact List.perm_insertionSort vle _

def c2Row : ChangeRow :=
  { store_id := 1, terminal_id := some 1, entity_type := "product",
    entity_id := 4, action := "update", data := "4|z", version := 1 }

def c2st : ServerState := { log := [c2Row], latestVersion := 1 }

theorem pull_returns_filtered_sorted_witness :
    ({ success := true, changes := [c2Row], latest_version := 1, count := 1 }
        : PullResp).latest_version = c2st.latestVersion ∧
    ∀ r ∈ ({ success := true, changes := [c2Row], latest_version := 1, count := 1 }
        : PullResp).changes, pullPred 0 2 r := by
  have h := pull_returns_filtered_sorted c2st 2 0
    { success := true, changes := [c2Row], latest_version := 1, count := 1 }
    (by decide) rfl
  exact ⟨h.1, h.2.2.1⟩

/- ===== Remote-change application (SyncService.applyProductChange etc.) ===== -/

/-- Models JSON.parse of change.data as the apply functions use it: the primary
key before the first bar, the remaining payload after it; none models a thrown
parse error. -/
def parseData (s : String) : Option (Int × String) :=
  match s.splitOn "|" with
  | [] => none
  | idStr :: rest => (idStr.toInt?).map (fun i => (i, String.intercalate "|" rest))

/-- INSERT OR REPLACE INTO ... by primary key: any conflicting row is removed
and the new row inserted. -/
def sqlUpsert (i : Int) (p : String) (t : List (Int × String)) : List (Int × String) :=
  t.filter (fun row => row.1 != i) ++ [(i, p)]

/-- DELETE FROM ... WHERE id = ?: removing an absent key is a no-op. -/
def sqlDelete (i : Int) (t : List (Int × String)) : List (Int × String) :=
  t.filter (fun row => row.1 != i)

/-- SyncService.applyProductChange: JSON.parse the payload, then switch on the
action; create and update both INSERT OR REPLACE, delete removes by id, any
other action falls through; a thrown error is Except.error. -/
def applyProductChange (change : ChangeRow) (products : List (Int × String)) :
    Except Unit (List (Int × String)) :=
  match parseData change.data with
  | none => Except.error ()
  | some (i, p) =>
      match change.action with
      | "create" => Except.ok (sqlUpsert i p products)
      | "update" => Except.ok (sqlUpsert i p products)
      | "delete" => Except.ok (sqlDelete i products)
      | _ => Except.ok products

/-- SyncService.applyCategoryChange, same shape over the categories table. -/
def applyCategoryChange (change : ChangeRow) (categories : List (Int × String)) :
    Except Unit (List (Int × String)) :=
  match parseData change.data with
  | none => Except.error ()
  | some (i, p) =>
      match change.action with
      | "create" => Except.ok (sqlUpsert i p categories)
      | "update" => Except.ok (sqlUpsert i p categories)
      | "delete" => Except.ok (sqlDelete i categories)
      | _ => Except.ok categories

/-- SyncService.applyUserChange, same shape over the users table. -/
def applyUserChange (change : ChangeRow) (users : List (Int × String)) :
    Except Unit (List (Int × String)) :=
  match parseData change.data with
  | none => Except.error ()
  | some (i, p) =>
      match change.action with
      | "create" => Except.ok (sqlUpsert i p users)
      | "update" => Except.ok (sqlUpsert i p users)
      | "delete" => Except.ok (sqlDelete i users)
      | _ => Except.ok users

/-- The terminal-local entity tables the pulled changes are replayed into. -/
structure LocalStore where
  products : List (Int × String)
  categories : List (Int × String)
  users : List (Int × String)
  deriving DecidableEq

/-- One iteration of SyncService.applyRemoteChanges: dispatch on entity_type
(an unrecognized type falls through the switch), with the per-entry try/catch
that logs and continues, leaving the store unchanged on a thrown error. -/
def applyChange (change : ChangeRow) (s : LocalStore) : LocalStore :=
  match change.entity_type with
  | "product" =>
      match applyProductChange change s.products with
      | Except.ok t => { s with products := t }
      | Except.error _ => s
  | "category" =>
      match applyCategoryChange change s.categories with
      | Except.ok t => { s with categories := t }
      | Except.error _ => s
  | "user" =>
      match applyUserChange change s.users with
      | Except.ok t => { s with users := t }
      | Except.error _ => s
  | _ => s

/-- SyncService.applyRemoteChanges: replay a pulled batch in order, per-entry
failures skipped. -/
def applyRemoteChanges (changes : List ChangeRow) (s : LocalStore) : LocalStore :=
  changes.foldl (fun acc change => applyChange change acc) s

lemma sqlUpsert_idem (i : Int) (p : String) (t : List (Int × String)) :
    sqlUpsert i p (sqlUpsert i p t) = sqlUpsert i p t := by
  unfold sqlUpsert
  rw [List.filter_append, List.filter_filter]
  simp

lemma sqlDelete_idem (i : Int) (t : List (Int × String)) :
    sqlDelete i (sqlDelete i t) = sqlDelete i t := by
  unfold sqlDelete
  rw [List.filter_filter]
  simp

lemma applyProductChange_idem (c : ChangeRow) (t t2 : List (Int × String))
    (h : applyProductChange c t = Except.ok t2) :
    applyProductChange c t2 = Except.ok t2 := by
  unfold applyProductChange at h ⊢
  cases hp : parseData c.data with
  | none => rw [hp] at h; cases h
  | some ip =>
      obtain ⟨i, p⟩ := ip
      rw [hp] at h
      dsimp only at h ⊢
      split at h <;> injection h with h <;> subst h <;>
        simp [sqlUpsert_idem, sqlDelete_idem]

lemma applyCategoryChange_idem (c : ChangeRow) (t t2 : List (Int × String))
    (h : applyCategoryChange c t = Except.ok t2) :
    applyCategoryChange c t2 = Except.ok t2 := by
  unfold applyCategoryChange at h ⊢
  cases hp : parseData c.data with
  | none => rw [hp] at h; cases h
  | some ip =>
      obtain ⟨i, p⟩ := ip
      rw [hp] at h
      dsimp only at h ⊢
      split at h <;> injection h with h <;> subst h <;>
        simp [sqlUpsert_idem, sqlDelete_idem]

lemma applyUserChange_idem (c : ChangeRow) (t t2 : List (Int × String))
    (h : applyUserChange c t = Except.ok t2) :
    applyUserChange c t2 = Except.ok t2 := by
  unfold applyUserChange at h ⊢
  cases hp : parseData c.data with
  | none => rw [hp] at h; cases h
  | some ip =>
      obtain ⟨i, p⟩ := ip
      rw [hp] at h
      dsimp only at h ⊢
      split at h <;> injection h with h <;> subst h <;>
        simp [sqlUpsert_idem, sqlDelete_idem]

lemma applyChange_product_ok (c : ChangeRow) (s : LocalStore) (t : List (Int × String))
    (h : c.entity_type = "product") (hA : applyProductChange c s.products = Except.ok t) :
    applyChange c s = { s with products := t } := by
  unfold applyChange
  split <;> simp_all

lemma applyChange_product_err (c : ChangeRow) (s : LocalStore) (e : Unit)
    (h : c.entity_type = "product") (hA : applyProductChange c s.products = Except.error e) :
    applyChange c s = s := by
  unfold applyChange
  split <;> simp_all

lemma applyChange_category_ok (c : ChangeRow) (s : LocalStore) (t : List (Int × String))
    (h : c.entity_type = "category") (hA : applyCategoryChange c s.categories = Except.ok t) :
    applyChange c s = { s with categories := t } := by
  unfold applyChange
  split <;> simp_all

lemma applyChange_category_err (c : ChangeRow) (s : LocalStore) (e : Unit)
    (h : c.entity_type = "category") (hA : applyCategoryChange c s.categories = Except.error e) :
    applyChange c s = s := by
  unfold applyChange
  split <;> simp_all

lemma applyChange_user_ok (c : ChangeRow) (s : LocalStore) (t : List (Int × String))
    (h : c.entity_type = "user") (hA : applyUserChange c s.users = Except.ok t) :
    applyChange c s = { s with users := t } := by
  unfold applyChange
  split <;> simp_all

lemma applyChange_user_err (c : ChangeRow) (s : LocalStore) (e : Unit)
    (h : c.entity_type = "user") (hA : applyUserChange c s.users = Except.error e) :
    applyChange c s = s := by
  unfold applyChange
  split <;> simp_all

/- ===== C6: applying the same entry twice equals applying it once ===== -/

/-- C6: for the recognized entity types, applying the same change entry twice
yields the same store as applying it once (create and update are INSERT OR
REPLACE by primary key); and a delete whose primary key is absent from the
table is a no-op returning ok, not an error. -/
theorem applyChange_idem (c : ChangeRow) (s : LocalStore)
    (h : c.entity_type = "product" ∨ c.entity_type = "category" ∨ c.entity_type = "user") :
    applyChange c (applyChange c s) = applyChange c s ∧
    (∀ (i : Int) (p : String) (t : List (Int × String)),
      parseData c.data = some (i, p) → c.action = "delete" →
      (∀ row ∈ t, row.1 ≠ i) →
      applyProductChange c t = Except.ok t ∧
      applyCategoryChange c t = Except.ok t ∧
      applyUserChange c t = Except.ok t) := by
  constructor
  · rcases h with h | h | h
    · cases hA : applyProductChange c s.products with
      | error e =>
          have h1 := applyChange_product_err c s e h hA
          rw [h1, h1]
      | ok t =>
          have h1 := applyChange_product_ok c s t h hA
          rw [h1]
          exact applyChange_product_ok c { s with products := t } t h
            (applyProductChange_idem c s.products t hA)
    · cases hA : applyCategoryChange c s.categories with
      | error e =>
          have h1 := applyChange_category_err c s e h hA
          rw [h1, h1]
      | ok t =>
          have h1 := applyChange_category_ok c s t h hA
          rw [h1]
          exact applyChange_category_ok c { s with categories := t } t h
            (applyCategoryChange_idem c s.categories t hA)
    · cases hA : applyUserChange c s.users with
      | error e =>
          have h1 := applyChange_user_err c s e h hA
          rw [h1, h1]
      | ok t =>
          have h1 := applyChange_user_ok c s t h hA
          rw [h1]
          exact applyChange_user_ok c { s with users := t } t h
            (applyUserChange_idem c s.users t hA)
  · intro i p t hp hd habs
    have hdel : sqlDelete i t = t := by
      unfold sqlDelete
      rw [List.filter_eq_self]
      intro row hrow
      exact bne_iff_ne.mpr (habs row hrow)
    refine ⟨?_, ?_, ?_⟩
    · unfold applyProductChange
      rw [hp]
      dsimp only
      split <;> simp_all [hdel]
    · unfold applyCategoryChange
      rw [hp]
      dsimp only
      split <;> simp_all [hdel]
    · unfold applyUserChange
      rw [hp]
      dsimp only
      split <;> simp_all [hdel]

def c6Change : ChangeRow :=
  { store_id := 1, terminal_id := some 2, entity_type := "product", entity_id := 1,
    action := "create", data := "1|a", version := 1 }

def c6Store : LocalStore := { products := [], categories := [], users := [] }

theorem applyChange_idem_witness :
    applyChange c6Change (applyChange c6Change c6Store) = applyChange c6Change c6Store :=
  (applyChange_idem c6Change c6Store (Or.inl rfl)).1

/- ===== C9: failing entries are skipped without aborting the batch ===== -/

lemma applyProductChange_parse_none (c : ChangeRow) (t : List (Int × String))
    (hp : parseData c.data = none) : applyProductChange c t = Except.error () := by
  unfold applyProductChange; rw [hp]

lemma applyCategoryChange_parse_none (c : ChangeRow) (t : List (Int × String))
    (hp : parseData c.data = none) : applyCategoryChange c t = Except.error () := by
  unfold applyCategoryChange; rw [hp]

lemma applyUserChange_parse_none (c : ChangeRow) (t : List (Int × String))
    (hp : parseData c.data = none) : applyUserChange c t = Except.error () := by
  unfold applyUserChange; rw [hp]

lemma applyChange_skip (c : ChangeRow) (s : LocalStore)
    (h : (c.entity_type ≠ "product" ∧ c.entity_type ≠ "category" ∧ c.entity_type ≠ "user")
         ∨ parseData c.data = none) :
    applyChange c s = s := by
  rcases h with ⟨h1, h2, h3⟩ | hp
  · unfold applyChange
    split <;> simp_all
  · unfold applyChange
    split
    · rw [applyProductChange_parse_none c _ hp]
    · rw [applyCategoryChange_parse_none c _ hp]
    · rw [applyUserChange_parse_none c _ hp]
    · rfl

/-- C9: a pulled entry with an unrecognized entity_type, or whose per-entity
apply throws (here: JSON.parse fails), is skipped: it leaves the local store
unchanged and the remaining entries of the batch are applied exactly as if it
were absent. -/
theorem applyRemoteChanges_skip (c : ChangeRow)
    (h : (c.entity_type ≠ "product" ∧ c.entity_type ≠ "category" ∧ c.entity_type ≠ "user")
         ∨ parseData c.data = none)
    (xs ys : List ChangeRow) (s : LocalStore) :
    applyRemoteChanges (xs ++ c :: ys) s = applyRemoteChanges (xs ++ ys) s := by
  unfold applyRemoteChanges
  rw [List.foldl_append, List.foldl_append, List.foldl_cons, applyChange_skip c _ h]

def c9Unknown : ChangeRow :=
  { store_id := 1, terminal_id := some 2, entity_type := "customer", entity_id := 9,
    action := "update", data := "9|q", version := 3 }

def c9Known : ChangeRow :=
  { store_id := 1, terminal_id := some 2, entity_type := "product", entity_id := 1,
    action := "create", data := "1|a", version := 2 }

def c9Store : LocalStore := { products := [], categories := [], users := [] }

theorem applyRemoteChanges_skip_witness :
    applyRemoteChanges [c9Known, c9Unknown, c9Known] c9Store
      = applyRemoteChanges [c9Known, c9Known] c9Store :=
  applyRemoteChanges_skip c9Unknown (Or.inl (by decide)) [c9Known] [c9Known] c9Store

/- ===== Terminal-local sync client (SyncService) ===== -/

/-- One sync_outbox row. -/
structure OutboxEntry where
  id : Nat
  entity_type : String
  entity_id : Int
  action : String
  data : String
  store_id : Int
  terminal_id : Int
  synced : Bool
  sync_attempts : Nat
  last_sync_attempt : Option Nat
  created_at : Nat
  deriving DecidableEq

/-- Terminal-local state: the outbox, the sync_state row (cursor and
timestamps), the terminals row timestamp, the configured flag (serverUrl set)
and the entity tables remote changes are replayed into. nextId is the outbox
autoincrement counter, which also serves as the strictly monotone creation
clock for created_at. -/
structure ClientState where
  outbox : List OutboxEntry
  nextId : Nat
  terminalId : Int
  storeId : Int
  configured : Bool
  last_sync_version : Nat
  last_pull_at : Option Nat
  last_push_at : Option Nat
  last_sync_at : Option Nat
  store : LocalStore
  deriving DecidableEq

/-- SyncService.addToOutbox: append one row with synced = false and
sync_attempts = 0. -/
def addToOutbox (entityType : String) (entityId : Int) (action data : String)
    (c : ClientState) : ClientState :=
  { c with
    outbox := c.outbox ++
      [{ id := c.nextId, entity_type := entityType, entity_id := entityId,
         action := action, data := data, store_id := c.storeId,
         terminal_id := c.terminalId, synced := false, sync_attempts := 0,
         last_sync_attempt := none, created_at := c.nextId }],
    nextId := c.nextId + 1 }

/-- The combined system under verification: one terminal client plus the
shared relay, together with a ghost list of the outbox ids contained in
batches for which the relay returned a successful push response (used only to
state the confirmation invariant; the code keeps no such list). -/
structure World where
  client : ClientState
  server : ServerState
  confirmed : List Nat
  deriving DecidableEq

/-- Environment of one sync cycle: whether the push and pull fetches reach the
relay, and the current time. -/
structure SyncEnv where
  pushOk : Bool
  pullOk : Bool
  now : Nat
  deriving DecidableEq

/-- Result surfaced by a sync phase: normal return or a thrown error. -/
inductive SyncOutcome where
  | ok
  | failed
  deriving DecidableEq

/-- ORDER BY created_at ASC of the outbox read. -/
def cle (a b : OutboxEntry) : Prop := a.created_at ≤ b.created_at

instance : DecidableRel cle := fun a b => Nat.decLe a.created_at b.created_at

instance : IsTotal OutboxEntry cle := ⟨fun a b => Nat.le_total a.created_at b.created_at⟩

instance : IsTrans OutboxEntry cle := ⟨fun _ _ _ => Nat.le_trans⟩

/-- The batch SyncService.pushChanges reads: unsynced rows, oldest first,
LIMIT 100. -/
def pushBatch (c : ClientState) : List OutboxEntry :=
  ((c.outbox.filter (fun e => !e.synced)).insertionSort cle).take 100

/-- The push request body SyncService.pushChanges sends: the client identity
plus the batch rows (the server reads only these four fields of each row). -/
def mkPushBody (c : ClientState) (batch : List OutboxEntry) : PushBody :=
  { terminal_id := some c.terminalId, store_id := some c.storeId,
    changes := ChangesField.arr (batch.map (fun e =>
      { entity_type := e.entity_type, entity_id := e.entity_id,
        action := e.action, data := e.data })) }

/-- The fetch of the push request: none models a network failure or a non-ok
(4xx/5xx) response, which the client treats identically (throw); on a 400 the
server state is unchanged. -/
def pushAttempt (env : SyncEnv) (w : World) : Option (PushResp × ServerState) :=
  if env.pushOk then
    match pushEndpoint w.server (mkPushBody w.client (pushBatch w.client)) with
    | (PushResult.ok resp, st2) => some (resp, st2)
    | (PushResult.badRequest, _) => none
  else none

/-- Success branch of SyncService.pushChanges: mark the batch ids synced and
stamp sync_state.last_push_at; the ghost confirmed list records the relay
acknowledgement. -/
def pushMarkSynced (env : SyncEnv) (w : World) (sv2 : ServerState) : World :=
  { w with
    server := sv2,
    client := { w.client with
      outbox := w.client.outbox.map (fun e =>
        if e.id ∈ (pushBatch w.client).map (fun x => x.id) then
          { e with synced := true }
        else e),
      last_push_at := some env.now },
    confirmed := w.confirmed ++ (pushBatch w.client).map (fun x => x.id) }

/-- Catch branch of SyncService.pushChanges: increment sync_attempts and stamp
last_sync_attempt on every entry of the attempted batch. -/
def pushMarkFailed (env : SyncEnv) (w : World) : World :=
  { w with client := { w.client with
      outbox := w.client.outbox.map (fun e =>
        if e.id ∈ (pushBatch w.client).map (fun x => x.id) then
          { e with sync_attempts := e.sync_attempts + 1,
                   last_sync_attempt := some env.now }
        else e) } }

/-- SyncService.pushChanges: read the batch; if empty return; otherwise POST
it; on success mark it synced, on failure mark the attempts and rethrow. -/
def pushChanges (env : SyncEnv) (w : World) : SyncOutcome × World :=
  if (pushBatch w.client).isEmpty then (SyncOutcome.ok, w)
  else
    match pushAttempt env w with
    | some r => (SyncOutcome.ok, pushMarkSynced env w r.2)
    | none => (SyncOutcome.failed, pushMarkFailed env w)

/-- Body of SyncService.pullChanges after a 200 response: apply the returned
changes when nonempty, then set sync_state.last_pull_at and
last_sync_version := result.latest_version || last_sync_version (the JS-falsy
fallback of the source). -/
def pullApply (env : SyncEnv) (w : World) (resp : PullResp) : World :=
  { w with client := { w.client with
      store := if resp.changes.isEmpty then w.client.store
               else applyRemoteChanges resp.changes w.client.store,
      last_pull_at := some env.now,
      last_sync_version := if resp.latest_version ≠ 0 then resp.latest_version
                           else w.client.last_sync_version } }

/-- SyncService.pullChanges: GET pull with the terminal id and the stored
cursor; a network failure or non-ok response throws before any local write. -/
def pullChanges (env : SyncEnv) (w : World) : SyncOutcome × World :=
  if env.pullOk then
    match pullEndpoint w.server
        { terminal_id := some w.client.terminalId,
          since_version := some (w.client.last_sync_version : Int) } with
    | PullResult.ok resp => (SyncOutcome.ok, pullApply env w resp)
    | PullResult.badRequest => (SyncOutcome.failed, w)
  else (SyncOutcome.failed, w)

/-- SyncService.sync: skip when no server url is configured; otherwise push
then pull, then stamp terminals.last_sync_at; a push failure aborts the cycle
before the pull and is rethrown to the caller. -/
def sync (env : SyncEnv) (w : World) : SyncOutcome × World :=
  if w.client.configured then
    match pushChanges env w with
    | (SyncOutcome.ok, w1) =>
        match pullChanges env w1 with
        | (SyncOutcome.ok, w2) =>
            (SyncOutcome.ok,
             { w2 with client := { w2.client with last_sync_at := some env.now } })
        | (SyncOutcome.failed, w2) => (SyncOutcome.failed, w2)
    | (SyncOutcome.failed, w1) => (SyncOutcome.failed, w1)
  else (SyncOutcome.ok, w)

/-- Client state right after SyncService.initialize on a fresh terminal. -/
def initClient (tid sid : Int) : ClientState :=
  { outbox := [], nextId := 1, terminalId := tid, storeId := sid,
    configured := true, last_sync_version := 0, last_pull_at := none,
    last_push_at := none, last_sync_at := none,
    store := { products := [], categories := [], users := [] } }

/-- Fresh world: fresh terminal, empty relay. -/
def initWorld (tid sid : Int) : World :=
  { client := initClient tid sid, server := { log := [], latestVersion := 0 },
    confirmed := [] }

/-- A local mutation recorded through addToOutbox. -/
def enqueue (entityType : String) (entityId : Int) (action data : String)
    (w : World) : World :=
  { w with client := addToOutbox entityType entityId action data w.client }

/-- Worlds reachable by the sync-client operations; otherPush lets other
terminals push to the shared relay between our steps. -/
inductive Reachable : World → Prop where
  | init (tid sid : Int) : Reachable (initWorld tid sid)
  | enqueueStep (entityType : String) (entityId : Int) (action data : String)
      (w : World) : Reachable w → Reachable (enqueue entityType entityId action data w)
  | syncStep (env : SyncEnv) (w : World) : Reachable w → Reachable (sync env w).2
  | otherPush (b : PushBody) (w : World) :
      Reachable w → Reachable { w with server := (pushEndpoint w.server b).2 }

/- ===== Characterization lemmas for the sync phases ===== -/

lemma pushEndpoint_latest_le (st : ServerState) (b : PushBody) :
    st.latestVersion ≤ (pushEndpoint st b).2.latestVersion := by
  obtain ⟨tid?, sid?, ch⟩ := b
  cases tid? <;> cases sid? <;> cases ch <;> try exact Nat.le_refl _
  case some.some.arr tid sid cs =>
    rw [pushEndpoint]
    dsimp only
    by_cases hcond : (tid != 0 && sid != 0) = true
    · rw [if_pos hcond]
      simp [insertChanges_eq]
    · rw [if_neg hcond]

lemma pushAttempt_latest_le (env : SyncEnv) (w : World) (r : PushResp × ServerState)
    (h : pushAttempt env w = some r) : w.server.latestVersion ≤ r.2.latestVersion := by
  unfold pushAttempt at h
  split at h
  · split at h
    · next resp st2 heq =>
        injection h with h
        subst h
        have hle := pushEndpoint_latest_le w.server (mkPushBody w.client (pushBatch w.client))
        rw [heq] at hle
        exact hle
    · cases h
  · cases h

lemma pushChanges_client_fields (env : SyncEnv) (w : World) :
    (pushChanges env w).2.client.last_sync_version = w.client.last_sync_version ∧
    (pushChanges env w).2.client.last_pull_at = w.client.last_pull_at ∧
    (pushChanges env w).2.client.terminalId = w.client.terminalId ∧
    (pushChanges env w).2.client.configured = w.client.configured := by
  unfold pushChanges
  split
  · exact ⟨rfl, rfl, rfl, rfl⟩
  · split
    · exact ⟨rfl, rfl, rfl, rfl⟩
    · exact ⟨rfl, rfl, rfl, rfl⟩

lemma pushChanges_latest_le (env : SyncEnv) (w : World) :
    w.server.latestVersion ≤ (pushChanges env w).2.server.latestVersion := by
  unfold pushChanges
  split
  · exact Nat.le_refl _
  · split
    · next r heq => exact pushAttempt_latest_le env w r heq
    · exact Nat.le_refl _

lemma pullChanges_preserves (env : SyncEnv) (w : World) :
    (pullChanges env w).2.client.outbox = w.client.outbox ∧
    (pullChanges env w).2.confirmed = w.confirmed ∧
    (pullChanges env w).2.server = w.server := by
  unfold pullChanges
  split
  · split
    · exact ⟨rfl, rfl, rfl⟩
    · exact ⟨rfl, rfl, rfl⟩
  · exact ⟨rfl, rfl, rfl⟩

lemma pullEndpoint_latest (st : ServerState) (q : PullQuery) (resp : PullResp)
    (h : pullEndpoint st q = PullResult.ok resp) :
    resp.latest_version = st.latestVersion := by
  unfold pullEndpoint at h
  cases hq : q.terminal_id with
  | none => rw [hq] at h; cases h
  | some t =>
      rw [hq] at h
      dsimp only at h
      by_cases hz : t = 0
      · rw [if_pos hz] at h; cases h
      · rw [if_neg hz] at h
        injection h with h
        subst h
        rfl

lemma pullChanges_cursor_le (env : SyncEnv) (w : World)
    (ih : w.client.last_sync_version ≤ w.server.latestVersion) :
    (pullChanges env w).2.client.last_sync_version
      ≤ (pullChanges env w).2.server.latestVersion := by
  unfold pullChanges
  split
  · split
    · next resp heq =>
        have hl := pullEndpoint_latest w.server _ resp heq
        simp only [pullApply]
        split
        · exact Nat.le_of_eq hl
        · exact ih
    · exact ih
  · exact ih

lemma sync_preserves_cursor_le (env : SyncEnv) (w : World)
    (ih : w.client.last_sync_version ≤ w.server.latestVersion) :
    (sync env w).2.client.last_sync_version ≤ (sync env w).2.server.latestVersion := by
  unfold sync
  split
  · cases hpc : pushChanges env w with
    | mk o1 w1 =>
      have hc1 : w1.client.last_sync_version ≤ w1.server.latestVersion := by
        have e1 : w1 = (pushChanges env w).2 := by rw [hpc]
        rw [e1]
        calc (pushChanges env w).2.client.last_sync_version
            = w.client.last_sync_version := (pushChanges_client_fields env w).1
          _ ≤ w.server.latestVersion := ih
          _ ≤ (pushChanges env w).2.server.latestVersion := pushChanges_latest_le env w
      cases o1 with
      | failed => exact hc1
      | ok =>
          dsimp only
          cases hq : pullChanges env w1 with
          | mk o2 w3 =>
            have hc3 : w3.client.last_sync_version ≤ w3.server.latestVersion := by
              have e3 : w3 = (pullChanges env w1).2 := by rw [hq]
              rw [e3]
              exact pullChanges_cursor_le env w1 hc1
            cases o2 with
            | failed => exact hc3
            | ok => exact hc3
  · exact ih

/-- In every reachable world the pull cursor never exceeds the relay
version counter. -/
lemma reachable_cursor_le {w : World} (hw : Reachable w) :
    w.client.last_sync_version ≤ w.server.latestVersion := by
  induction hw with
  | init tid sid => exact Nat.le_refl 0
  | enqueueStep entityType entityId action data w hw ih => exact ih
  | syncStep env w hw ih => exact sync_preserves_cursor_le env w ih
  | otherPush b w hw ih => exact Nat.le_trans ih (pushEndpoint_latest_le w.server b)

/- ===== C4: push failure aborts the cycle after marking the batch ===== -/

/-- C4: when the push attempt fails (network error or non-ok relay response)
on a nonempty batch, the sync cycle surfaces failure without running the pull
phase: every batch entry gets sync_attempts + 1 and last_sync_attempt stamped,
batch entries were and stay synced = false, and the sync cursor
(last_sync_version, last_pull_at) and the relay state are untouched. -/
theorem sync_push_failure (env : SyncEnv) (w : World)
    (hconf : w.client.configured = true)
    (hne : pushBatch w.client ≠ [])
    (hfail : pushAttempt env w = none) :
    (sync env w).1 = SyncOutcome.failed ∧
    (sync env w).2.client.outbox = w.client.outbox.map (fun e =>
      if e.id ∈ (pushBatch w.client).map (fun x => x.id) then
        { e with sync_attempts := e.sync_attempts + 1,
                 last_sync_attempt := some env.now }
      else e) ∧
    (∀ e ∈ pushBatch w.client, e.synced = false) ∧
    (sync env w).2.client.last_sync_version = w.client.last_sync_version ∧
    (sync env w).2.client.last_pull_at = w.client.last_pull_at ∧
    (sync env w).2.server = w.server := by
  have hB : ¬ ((pushBatch w.client).isEmpty = true) :=
    fun h => hne (List.isEmpty_iff.mp h)
  have hsync : sync env w = (SyncOutcome.failed, pushMarkFailed env w) := by
    unfold sync pushChanges
    rw [if_pos hconf, if_neg hB, hfail]
  rw [hsync]
  refine ⟨rfl, rfl, ?_, rfl, rfl, rfl⟩
  intro e he
  unfold pushBatch at he
  have h1 := List.take_subset _ _ he
  rw [List.mem_insertionSort] at h1
  have h2 := (List.mem_filter.mp h1).2
  simpa using h2

def envF : SyncEnv := { pushOk := false, pullOk := true, now := 9 }

def wF : World := enqueue "product" 1 "create" "1|a" (initWorld 1 1)

theorem sync_push_failure_witness :
    (sync envF wF).1 = SyncOutcome.failed ∧ (sync envF wF).2.server = wF.server := by
  have h := sync_push_failure envF wF rfl (by decide) rfl
  exact ⟨h.1, h.2.2.2.2.2⟩

/- ===== C5: a successful pull always advances the cursor ===== -/

/-- C5: in every reachable state, a sync cycle that returns normally — its
pull request succeeded, including the empty-outbox cycle that skips the push
but still pulls — sets SyncCursor.last_sync_version to the relay-reported
latest_version (the relay counter after this cycle's own push) and stamps
last_pull_at, even when the returned batch is empty and even when returned
entries fail to apply. -/
theorem sync_pull_advances_cursor (env : SyncEnv) (w w2 : World)
    (hw : Reachable w) (hconf : w.client.configured = true)
    (hok : sync env w = (SyncOutcome.ok, w2)) :
    w2.client.last_sync_version = w2.server.latestVersion ∧
    w2.client.last_pull_at = some env.now := by
  have hcur := reachable_cursor_le hw
  unfold sync at hok
  rw [if_pos hconf] at hok
  cases hpc : pushChanges env w with
  | mk o1 w1 =>
    rw [hpc] at hok
    have hc1 : w1.client.last_sync_version ≤ w1.server.latestVersion := by
      have e1 : w1 = (pushChanges env w).2 := by rw [hpc]
      rw [e1]
      calc (pushChanges env w).2.client.last_sync_version
          = w.client.last_sync_version := (pushChanges_client_fields env w).1
        _ ≤ w.server.latestVersion := hcur
        _ ≤ (pushChanges env w).2.server.latestVersion := pushChanges_latest_le env w
    cases o1 with
    | failed => simp at hok
    | ok =>
        dsimp only at hok
        cases hq : pullChanges env w1 with
        | mk o2 w3 =>
          rw [hq] at hok
          cases o2 with
          | failed => simp at hok
          | ok =>
              have hw2 : w2
                  = { w3 with client := { w3.client with last_sync_at := some env.now } } :=
                (congrArg Prod.snd hok).symm
              subst hw2
              unfold pullChanges at hq
              split at hq
              · split at hq
                · next resp heq =>
                    injection hq with hq1 hq2
                    subst hq2
                    have hl := pullEndpoint_latest w1.server _ resp heq
                    constructor
                    · simp only [pullApply]
                      split
                      · exact hl
                      · next hz =>
                          have h0 : resp.latest_version = 0 := by omega
                          have h1 : w1.server.latestVersion = 0 := by omega
                          omega
                    · simp [pullApply]
                · simp at hq
              · simp at hq

def envW : SyncEnv := { pushOk := true, pullOk := true, now := 3 }

theorem sync_pull_advances_cursor_witness :
    (sync envW (initWorld 1 1)).2.client.last_sync_version
      = (sync envW (initWorld 1 1)).2.server.latestVersion ∧
    (sync envW (initWorld 1 1)).2.client.last_pull_at = some 3 :=
  sync_pull_advances_cursor envW (initWorld 1 1) (sync envW (initWorld 1 1)).2
    (Reachable.init 1 1) rfl rfl

/- ===== C7: synced entries were confirmed by the relay ===== -/

/-- The confirmation invariant: every outbox entry marked synced has its id in
the ghost list of relay-confirmed batch ids. -/
def SyncedConfirmed (w : World) : Prop :=
  ∀ e ∈ w.client.outbox, e.synced = true → e.id ∈ w.confirmed

lemma pushChanges_syncedConfirmed (env : SyncEnv) (w : World)
    (h : SyncedConfirmed w) : SyncedConfirmed (pushChanges env w).2 := by
  unfold pushChanges
  split
  · exact h
  · split
    · intro e he hs
      simp only [pushMarkSynced] at he ⊢
      rw [List.mem_map] at he
      obtain ⟨e0, he0, hfe⟩ := he
      by_cases hid : e0.id ∈ (pushBatch w.client).map (fun x => x.id)
      · rw [if_pos hid] at hfe
        subst hfe
        exact List.mem_append_right _ hid
      · rw [if_neg hid] at hfe
        subst hfe
        exact List.mem_append_left _ (h e0 he0 hs)
    · intro e he hs
      simp only [pushMarkFailed] at he ⊢
      rw [List.mem_map] at he
      obtain ⟨e0, he0, hfe⟩ := he
      by_cases hid : e0.id ∈ (pushBatch w.client).map (fun x => x.id)
      · rw [if_pos hid] at hfe
        subst hfe
        exact h e0 he0 hs
      · rw [if_neg hid] at hfe
        subst hfe
        exact h e0 he0 hs

lemma pullChanges_syncedConfirmed (env : SyncEnv) (w : World)
    (h : SyncedConfirmed w) : SyncedConfirmed (pullChanges env w).2 := by
  intro e he hs
  rw [(pullChanges_preserves env w).1] at he
  rw [(pullChanges_preserves env w).2.1]
  exact h e he hs

lemma sync_syncedConfirmed (env : SyncEnv) (w : World)
    (h : SyncedConfirmed w) : SyncedConfirmed (sync env w).2 := by
  unfold sync
  split
  · cases hpc : pushChanges env w with
    | mk o1 w1 =>
      have h1 : SyncedConfirmed w1 := by
        have e1 : w1 = (pushChanges env w).2 := by rw [hpc]
        rw [e1]
        exact pushChanges_syncedConfirmed env w h
      cases o1 with
      | failed => exact h1
      | ok =>
          dsimp only
          cases hq : pullChanges env w1 with
          | mk o2 w3 =>
            have h3 : SyncedConfirmed w3 := by
              have e3 : w3 = (pullChanges env w1).2 := by rw [hq]
              rw [e3]
              exact pullChanges_syncedConfirmed env w1 h1
            cases o2 with
            | failed => exact h3
            | ok => exact h3
  · exact h

/-- C7: in every reachable state, every outbox entry with synced = true has
its id among the ids of batches for which the relay returned a successful push
response; no operation marks an entry synced without such a confirmation. -/
theorem synced_entries_confirmed (w : World) (hw : Reachable w) :
    ∀ e ∈ w.client.outbox, e.synced = true → e.id ∈ w.confirmed := by
  induction hw with
  | init tid sid => intro e he hs; exact absurd he (List.not_mem_nil e)
  | enqueueStep entityType entityId action data w hw ih =>
      intro e he hs
      simp only [enqueue, addToOutbox] at he
      rcases List.mem_append.mp he with he | he
      · exact ih e he hs
      · rw [List.mem_singleton] at he
        subst he
        simp at hs
  | syncStep env w hw ih => exact sync_syncedConfirmed env w ih
  | otherPush b w hw ih => exact ih

def envG : SyncEnv := { pushOk := true, pullOk := true, now := 5 }

def c7World : World := (sync envG (enqueue "product" 1 "create" "1|a" (initWorld 1 1))).2

def c7Entry : OutboxEntry :=
  { id := 1, entity_type := "product", entity_id := 1, action := "create",
    data := "1|a", store_id := 1, terminal_id := 1, synced := true,
    sync_attempts := 0, last_sync_attempt := none, created_at := 1 }

theorem synced_entries_confirmed_witness : c7Entry.id ∈ c7World.confirmed :=
  synced_entries_confirmed c7World
    (Reachable.syncStep envG _
      (Reachable.enqueueStep "product" 1 "create" "1|a" _ (Reachable.init 1 1)))
    c7Entry (by decide) rfl


/- ===== C3: one cycle pushes the whole pending batch ===== -/

/-- One local mutation as recorded into the outbox. -/
structure Mutation where
  entity_type : String
  entity_id : Int
  action : String
  data : String
  deriving DecidableEq

/-- Record a sequence of local mutations through addToOutbox. -/
def enqueueAll (ms : List Mutation) (c : ClientState) : ClientState :=
  ms.foldl (fun acc m => addToOutbox m.entity_type m.entity_id m.action m.data acc) c

/-- The outbox rows a sequence of mutations appends, ids and creation stamps
counting up from n. -/
def newEntries (tid sid : Int) : Nat → List Mutation → List OutboxEntry
  | _, [] => []
  | n, m :: rest =>
      { id := n, entity_type := m.entity_type, entity_id := m.entity_id,
        action := m.action, data := m.data, store_id := sid, terminal_id := tid,
        synced := false, sync_attempts := 0, last_sync_attempt := none,
        created_at := n } :: newEntries tid sid (n + 1) rest

/-- Assemble a world from its three components. -/
def mkWorld (c : ClientState) (sv : ServerState) (g : List Nat) : World :=
  { client := c, server := sv, confirmed := g }

lemma enqueueAll_eq : ∀ (ms : List Mutation) (c : ClientState),
    enqueueAll ms c
      = { c with
          outbox := c.outbox ++ newEntries c.terminalId c.storeId c.nextId ms,
          nextId := c.nextId + ms.length } := by
  intro ms
  induction ms with
  | nil => intro c; simp [enqueueAll, newEntries]
  | cons m rest ih =>
      intro c
      have h1 : enqueueAll (m :: rest) c
          = enqueueAll rest (addToOutbox m.entity_type m.entity_id m.action m.data c) := rfl
      rw [h1, ih]
      simp only [addToOutbox, newEntries]
      refine congrArg₂ (fun a b => { c with outbox := a, nextId := b }) ?_ ?_
      · simp [List.append_assoc]
      · simp only [List.length_cons]
        omega

lemma newEntries_length (tid sid : Int) :
    ∀ (n : Nat) (ms : List Mutation), (newEntries tid sid n ms).length = ms.length := by
  intro n ms
  induction ms generalizing n with
  | nil => simp [newEntries]
  | cons m rest ih => simp [newEntries, ih]

lemma newEntries_synced (tid sid : Int) (n : Nat) :
    ∀ (ms : List Mutation) (e : OutboxEntry),
      e ∈ newEntries tid sid n ms → e.synced = false := by
  intro ms
  induction ms generalizing n with
  | nil => intro e he; cases he
  | cons m rest ih =>
      intro e he
      rcases List.mem_cons.mp he with he | he
      · subst he; rfl
      · exact ih (n + 1) e he

lemma newEntries_created_ge (tid sid : Int) (n : Nat) :
    ∀ (ms : List Mutation) (e : OutboxEntry),
      e ∈ newEntries tid sid n ms → n ≤ e.created_at := by
  intro ms
  induction ms generalizing n with
  | nil => intro e he; cases he
  | cons m rest ih =>
      intro e he
      rcases List.mem_cons.mp he with he | he
      · subst he; exact Nat.le_refl n
      · exact Nat.le_trans (Nat.le_succ n) (ih (n + 1) e he)

lemma newEntries_sorted (tid sid : Int) (n : Nat) :
    ∀ (ms : List Mutation), List.Sorted cle (newEntries tid sid n ms) := by
  intro ms
  induction ms generalizing n with
  | nil => exact List.sorted_nil
  | cons m rest ih =>
      rw [newEntries]
      refine List.pairwise_cons.mpr ⟨?_, ih (n + 1)⟩
      intro e he
      have h2 := newEntries_created_ge tid sid (n + 1) rest e he
      unfold cle
      dsimp only
      omega

lemma pushAttempt_spec (env : SyncEnv) (w : World)
    (hpush : env.pushOk = true)
    (htid : w.client.terminalId ≠ 0) (hsid : w.client.storeId ≠ 0) :
    pushAttempt env w = some
      ({ success := true,
         changes_received := (pushBatch w.client).length,
         latest_version := w.server.latestVersion + (pushBatch w.client).length },
       { log := w.server.log ++ mkRows w.client.storeId w.client.terminalId
                  w.server.latestVersion ((pushBatch w.client).map (fun e =>
                    { entity_type := e.entity_type, entity_id := e.entity_id,
                      action := e.action, data := e.data })),
         latestVersion := w.server.latestVersion + (pushBatch w.client).length }) := by
  unfold pushAttempt
  rw [hpush, if_pos rfl, pushEndpoint]
  dsimp only [mkPushBody]
  rw [if_pos (show (w.client.terminalId != 0 && w.client.storeId != 0) = true
        by simp [htid, hsid])]
  rw [insertChanges_eq]
  dsimp only
  rw [List.length_map]

lemma pushChanges_success_spec (env : SyncEnv) (w : World)
    (hpush : env.pushOk = true)
    (htid : w.client.terminalId ≠ 0) (hsid : w.client.storeId ≠ 0)
    (hne : pushBatch w.client ≠ []) :
    pushChanges env w = (SyncOutcome.ok, pushMarkSynced env w
      { log := w.server.log ++ mkRows w.client.storeId w.client.terminalId
                 w.server.latestVersion ((pushBatch w.client).map (fun e =>
                   { entity_type := e.entity_type, entity_id := e.entity_id,
                     action := e.action, data := e.data })),
        latestVersion := w.server.latestVersion + (pushBatch w.client).length }) := by
  unfold pushChanges
  rw [if_neg (fun h => hne (List.isEmpty_iff.mp h))]
  rw [pushAttempt_spec env w hpush htid hsid]

lemma sync_after_push (env : SyncEnv) (w : World) (w1 : World)
    (hconf : w.client.configured = true)
    (hp : pushChanges env w = (SyncOutcome.ok, w1)) :
    (sync env w).2.client.outbox = w1.client.outbox ∧
    (sync env w).2.server = w1.server := by
  unfold sync
  rw [if_pos hconf, hp]
  dsimp only
  cases hq : pullChanges env w1 with
  | mk o2 w3 =>
      have hpre := pullChanges_preserves env w1
      rw [hq] at hpre
      cases o2 with
      | failed => exact ⟨hpre.1, hpre.2.2⟩
      | ok => exact ⟨hpre.1, hpre.2.2⟩

lemma sync_batch_core (env : SyncEnv) (c2 : ClientState) (sv : ServerState)
    (g : List Nat) (old NE : List OutboxEntry)
    (hout : c2.outbox = old ++ NE)
    (hold : ∀ e ∈ old, e.synced = true)
    (hNEs : ∀ e ∈ NE, e.synced = false)
    (hNEsort : List.Sorted cle NE)
    (hNElen : NE.length ≤ 100)
    (hconf : c2.configured = true) (htid : c2.terminalId ≠ 0) (hsid : c2.storeId ≠ 0)
    (hpush : env.pushOk = true) :
    (∀ e ∈ (sync env (mkWorld c2 sv g)).2.client.outbox, e.synced = true) ∧
    (sync env (mkWorld c2 sv g)).2.server.log.length = sv.log.length + NE.length ∧
    ((sync env (mkWorld c2 sv g)).2.server.log.drop sv.log.length).map
        (fun r => r.version)
      = List.range' (sv.latestVersion + 1) NE.length := by
  have hbatch : pushBatch c2 = NE := by
    unfold pushBatch
    rw [hout, List.filter_append]
    rw [List.filter_eq_nil_iff.mpr (by intro a ha; simp [hold a ha])]
    rw [List.filter_eq_self.mpr (by intro a ha; simp [hNEs a ha])]
    rw [List.nil_append, hNEsort.insertionSort_eq]
    exact List.take_of_length_le hNElen
  by_cases hne : NE = []
  · have hp : pushChanges env (mkWorld c2 sv g) = (SyncOutcome.ok, mkWorld c2 sv g) := by
      unfold pushChanges
      dsimp only [mkWorld]
      rw [hbatch, hne]
      rfl
    have hs := sync_after_push env (mkWorld c2 sv g) (mkWorld c2 sv g) hconf hp
    refine ⟨?_, ?_, ?_⟩
    · intro e he
      rw [hs.1] at he
      dsimp only [mkWorld] at he
      rw [hout, hne, List.append_nil] at he
      exact hold e he
    · rw [hs.2, hne]
      simp [mkWorld]
    · rw [hs.2, hne]
      simp [mkWorld, List.drop_length]
  · have hp := pushChanges_success_spec env (mkWorld c2 sv g) hpush htid hsid
      (by dsimp only [mkWorld]; rw [hbatch]; exact hne)
    dsimp only [mkWorld] at hp
    rw [hbatch] at hp
    have hs := sync_after_push env (mkWorld c2 sv g) _ hconf hp
    refine ⟨?_, ?_, ?_⟩
    · intro e he
      rw [hs.1] at he
      simp only [pushMarkSynced] at he
      dsimp only [mkWorld] at he
      rw [hbatch] at he
      rw [List.mem_map] at he
      obtain ⟨e0, he0, hfe⟩ := he
      by_cases hid : e0.id ∈ NE.map (fun x => x.id)
      · rw [if_pos hid] at hfe
        subst hfe
        rfl
      · rw [if_neg hid] at hfe
        subst hfe
        rw [hout] at he0
        rcases List.mem_append.mp he0 with h0 | h0
        · exact hold e0 h0
        · exact absurd (List.mem_map.mpr ⟨e0, h0, rfl⟩) hid
    · rw [hs.2]
      simp only [pushMarkSynced]
      rw [List.length_append, mkRows_length, List.length_map]
    · rw [hs.2]
      simp only [pushMarkSynced]
      rw [List.drop_left, mkRows_versions, List.length_map]

/-- C3 (amended to the push batch limit): enqueueing N ≤ 100 mutations onto a
client with no pending outbox entries and running one sync cycle whose push the
relay accepts marks every outbox entry synced = true, and the relay's change
log gains exactly N new entries with contiguous versions
latest+1 .. latest+N. -/
theorem sync_batch_all_synced (env : SyncEnv) (c : ClientState) (sv : ServerState)
    (g : List Nat) (ms : List Mutation)
    (hN : ms.length ≤ 100)
    (hsynced : ∀ e ∈ c.outbox, e.synced = true)
    (hconf : c.configured = true) (htid : c.terminalId ≠ 0) (hsid : c.storeId ≠ 0)
    (hpush : env.pushOk = true) :
    (∀ e ∈ (sync env (mkWorld (enqueueAll ms c) sv g)).2.client.outbox,
        e.synced = true) ∧
    (sync env (mkWorld (enqueueAll ms c) sv g)).2.server.log.length
      = sv.log.length + ms.length ∧
    ((sync env (mkWorld (enqueueAll ms c) sv g)).2.server.log.drop
        sv.log.length).map (fun r => r.version)
      = List.range' (sv.latestVersion + 1) ms.length := by
  have hcl := enqueueAll_eq ms c
  have hout : (enqueueAll ms c).outbox
      = c.outbox ++ newEntries c.terminalId c.storeId c.nextId ms := by rw [hcl]
  have hconf2 : (enqueueAll ms c).configured = true := by rw [hcl]; exact hconf
  have htid2 : (enqueueAll ms c).terminalId ≠ 0 := by rw [hcl]; exact htid
  have hsid2 : (enqueueAll ms c).storeId ≠ 0 := by rw [hcl]; exact hsid
  have hlen := newEntries_length c.terminalId c.storeId c.nextId ms
  have h := sync_batch_core env (enqueueAll ms c) sv g c.outbox
    (newEntries c.terminalId c.storeId c.nextId ms) hout hsynced
    (newEntries_synced c.terminalId c.storeId c.nextId ms)
    (newEntries_sorted c.terminalId c.storeId c.nextId ms)
    (by rw [hlen]; exact hN) hconf2 htid2 hsid2 hpush
  rw [hlen] at h
  exact h

def c3BigMuts : List Mutation :=
  (List.range 101).map (fun i =>
    { entity_type := "product", entity_id := (i : Int), action := "update",
      data := "1|x" })

def c3BigWorld : World :=
  mkWorld (enqueueAll c3BigMuts (initClient 1 1)) { log := [], latestVersion := 0 } []

set_option maxRecDepth 100000 in
/-- C3 counterexample: with 101 pending mutations, one successful sync cycle
against a fresh accepting relay leaves an outbox entry unsynced and appends
only 100 rows to the change log, because the push batch is capped at LIMIT
100 — so the claim fails for N = 101. -/
theorem sync_batch_counterexample :
    (sync envG c3BigWorld).1 = SyncOutcome.ok ∧
    ((sync envG c3BigWorld).2.client.outbox.all (fun e => e.synced)) = false ∧
    (sync envG c3BigWorld).2.server.log.length = 100 := by
  refine ⟨rfl, rfl, rfl⟩

def c3TwoMuts : List Mutation :=
  [ { entity_type := "product", entity_id := 1, action := "create", data := "1|a" },
    { entity_type := "product", entity_id := 2, action := "create", data := "2|b" } ]

def c3SmallServer : ServerState := { log := [], latestVersion := 0 }

theorem sync_batch_all_synced_witness :
    (sync envG (mkWorld (enqueueAll c3TwoMuts (initClient 1 1))
        c3SmallServer [])).2.server.log.length = 0 + 2 ∧
    ((sync envG (mkWorld (enqueueAll c3TwoMuts (initClient 1 1))
        c3SmallServer [])).2.server.log.drop 0).map (fun r => r.version)
      = List.range' 1 2 := by
  have h := sync_batch_all_synced envG (initClient 1 1) c3SmallServer [] c3TwoMuts
    (by decide) (by intro e he; cases he) rfl (by decide) (by decide) rfl
  exact ⟨h.2.1, h.2.2⟩

end PosSync
